import Mathlib

/-!
Verification development for the multiplayer relay server in
`backend/server.py` (ConnectionManager + websocket endpoint).

Python dicts are modelled as ordered association lists (`Dict α`):
insertion order is preserved, assignment replaces the first binding in
place, `del` removes it, lookup finds the first binding.  WebSocket
connection handles are modelled by a `Bool` flag: `true` means a
`send_text` on the handle succeeds, `false` means it raises (the code
catches the exception per recipient and continues).  A broadcast is
therefore embedded as the list of `(recipient_id, envelope)` deliveries
that succeed, in iteration order.
-/

namespace Backend

/-- An ordered association list standing in for a Python dict. -/
abbrev Dict (α : Type) := List (String × α)

/-- `d[k]` lookup: first binding wins (Python dicts have unique keys). -/
def dget {α : Type} : Dict α → String → Option α
  | [], _ => none
  | (k', v) :: rest, k => if k' = k then some v else dget rest k

/-- `k in d` membership test. -/
def dmem {α : Type} (d : Dict α) (k : String) : Bool :=
  (dget d k).isSome

/-- `d[k] = v` assignment: replace the first binding in place, else append. -/
def dset {α : Type} : Dict α → String → α → Dict α
  | [], k, v => [(k, v)]
  | (k', v') :: rest, k, v =>
    if k' = k then (k, v) :: rest else (k', v') :: dset rest k v

/-- `del d[k]`: remove the first binding for `k`. -/
def derase {α : Type} : Dict α → String → Dict α
  | [], _ => []
  | (k', v') :: rest, k =>
    if k' = k then rest else (k', v') :: derase rest k

/-- In-place update of the value stored at `k` (no-op when `k` absent). -/
def dmodify {α : Type} : Dict α → String → (α → α) → Dict α
  | [], _, _ => []
  | (k', v') :: rest, k, f =>
    if k' = k then (k, f v') :: rest else (k', v') :: dmodify rest k f

/-- The keys of the dict are pairwise distinct (true of every Python dict). -/
def keysNodup {α : Type} (d : Dict α) : Prop := (d.map Prod.fst).Nodup

/-- JSON-ish values stored inside a player-state record or a block payload. -/
inductive SVal where
  | str (s : String)
  | num (n : Int)
  | boolean (b : Bool)
  | dict (d : Dict Int)
deriving DecidableEq, Repr

/-- A player-state record: the Python dict built in `ConnectionManager.connect`. -/
abbrev StateDict := Dict SVal

/-- The dict literal assigned to `self.player_states[player_id]` on connect. -/
def freshState (player_id player_name : String) : StateDict :=
  [ ("id", .str player_id),
    ("name", .str player_name),
    ("position", .dict [("x", 32), ("y", 32), ("z", 32)]),
    ("rotation", .dict [("x", 0), ("y", 0), ("z", 0)]),
    ("connected", .boolean true) ]

/-- A connection handle; `true` iff `send_text` on it succeeds. -/
abbrev Conn := Bool

/-- Truthiness of `state["connected"]` (the code only ever stores booleans). -/
def connectedFlag (s : StateDict) : Bool :=
  dget s "connected" == some (.boolean true)

/-- The two dicts owned by `ConnectionManager`. -/
structure Manager where
  active_connections : Dict Conn
  player_states : Dict StateDict
deriving DecidableEq, Repr

/-- Outbound message envelopes (the `json.dumps` payloads of the server). -/
inductive Envelope where
  | existing_players (players : List StateDict)
  | player_joined (player : StateDict)
  | player_left (player_id : String)
  | player_state_update (player_id : String) (state : Dict (Dict Int))
  | block_update (data : Dict SVal)
  | chat_message (player_id : String) (text : String)
  | supersaiyan_toggle (player_id : String) (active : Bool)
deriving DecidableEq, Repr

/-- One delivery: (recipient id, envelope handed to its `send_text`). -/
abbrev Delivery := String × Envelope

/-- The `for connection_id, connection in active_connections.items(): try: send`
loop: every recipient is attempted, a failed send is logged and skipped,
the loop itself never raises. -/
def broadcastAll : Dict Conn → Envelope → List Delivery
  | [], _ => []
  | (cid, conn) :: rest, e =>
    if conn then (cid, e) :: broadcastAll rest e else broadcastAll rest e

/-- `ConnectionManager` registration part of `connect` (the two dict writes). -/
def connectRegister (m : Manager) (ws : Conn) (player_id player_name : String) :
    Manager :=
  { active_connections := dset m.active_connections player_id ws,
    player_states := dset m.player_states player_id (freshState player_id player_name) }

/-- `ConnectionManager.send_existing_players`: build the filtered snapshot and
send it to the new player only — and only when it is non-empty. -/
def send_existing_players (m : Manager) (player_id : String) : List Delivery :=
  match dget m.active_connections player_id with
  | none => []
  | some conn =>
    let existing := m.player_states.filter
      (fun p => (p.1 != player_id) && connectedFlag p.2)
    if existing.isEmpty then []
    else if conn then
      [(player_id, .existing_players (existing.map Prod.snd))]
    else []

/-- `ConnectionManager.broadcast_player_joined`: to ALL active connections. -/
def broadcast_player_joined (m : Manager) (player_id : String) : List Delivery :=
  match dget m.player_states player_id with
  | none => []
  | some st => broadcastAll m.active_connections (.player_joined st)

/-- `ConnectionManager.connect`: register, send the snapshot to the joiner,
then broadcast `player_joined` to everyone. -/
def connect (m : Manager) (ws : Conn) (player_id player_name : String) :
    Manager × List Delivery :=
  let m' := connectRegister m ws player_id player_name
  (m', send_existing_players m' player_id ++ broadcast_player_joined m' player_id)

/-- `ConnectionManager.disconnect`: drop the live handle, flip `connected`. -/
def disconnect (m : Manager) (player_id : String) : Manager :=
  if dmem m.active_connections player_id then
    { active_connections := derase m.active_connections player_id,
      player_states :=
        if dmem m.player_states player_id then
          dmodify m.player_states player_id
            (fun s => dset s "connected" (.boolean false))
        else m.player_states }
  else m

/-- `ConnectionManager.broadcast_player_left`: to ALL active connections. -/
def broadcast_player_left (m : Manager) (player_id : String) : List Delivery :=
  broadcastAll m.active_connections (.player_left player_id)

/-- Inner loop `state[key][coord] = val` of `update_player_state`. -/
def setCoord (key : String) (st : StateDict) (cv : String × Int) : StateDict :=
  dmodify st key (fun sv =>
    match sv with
    | .dict d => .dict (dset d cv.1 cv.2)
    | sv => sv)

/-- One iteration of `for key, value in update_data.items()`. -/
def mergeField (st : StateDict) (kv : String × Dict Int) : StateDict :=
  if kv.1 == "position" || kv.1 == "rotation" then
    kv.2.foldl (setCoord kv.1) st
  else st

/-- The merge loop of `ConnectionManager.update_player_state`. -/
def applyUpdateData (s : StateDict) (update_data : Dict (Dict Int)) : StateDict :=
  update_data.foldl mergeField s

/-- `ConnectionManager.update_player_state`: merge, then broadcast the raw
`update_data` to ALL active connections. -/
def update_player_state (m : Manager) (player_id : String)
    (update_data : Dict (Dict Int)) : Manager × List Delivery :=
  if dmem m.player_states player_id then
    let m' := { m with
      player_states := dmodify m.player_states player_id
        (fun s => applyUpdateData s update_data) }
    (m', broadcastAll m'.active_connections
      (.player_state_update player_id update_data))
  else (m, [])

/-- `ConnectionManager.broadcast_block_update`: to ALL active connections. -/
def broadcast_block_update (m : Manager) (_player_id : String)
    (block_data : Dict SVal) : List Delivery :=
  broadcastAll m.active_connections (.block_update block_data)

/-- `all(k in d for k in ks)`. -/
def hasKeys {α : Type} (d : Dict α) (ks : List String) : Bool :=
  ks.all (fun k => dmem d k)

/-- The `position_update` branch of the websocket endpoint. -/
def handle_position_update (m : Manager) (player_id : String)
    (position : Dict Int) : Manager × List Delivery :=
  if hasKeys position ["x", "y", "z"] then
    update_player_state m player_id [("position", position)]
  else (m, [])

/-- The `rotation_update` branch of the websocket endpoint. -/
def handle_rotation_update (m : Manager) (player_id : String)
    (rotation : Dict Int) : Manager × List Delivery :=
  if hasKeys rotation ["x", "y", "z"] then
    update_player_state m player_id [("rotation", rotation)]
  else (m, [])

/-- The `block_update` branch of the websocket endpoint. -/
def handle_block_update (m : Manager) (player_id : String)
    (block_data : Dict SVal) : Manager × List Delivery :=
  if hasKeys block_data ["action", "x", "y", "z"] then
    (m, broadcast_block_update m player_id block_data)
  else (m, [])

/-- Python `str.strip()`: drop whitespace from both ends. -/
def pyStrip (s : String) : String :=
  ⟨((s.data.dropWhile Char.isWhitespace).reverse.dropWhile
      Char.isWhitespace).reverse⟩

/-- The `chat_message` branch of the websocket endpoint (`.strip()` first). -/
def handle_chat_message (m : Manager) (player_id text : String) :
    List Delivery :=
  let chat_text := pyStrip text
  if chat_text ≠ "" then
    broadcastAll m.active_connections (.chat_message player_id chat_text)
  else []

/-- The `finally` teardown of the websocket endpoint: every exit path of the
message loop reaches this one block, which deregisters and then broadcasts
`player_left` over the remaining connections. -/
def websocket_teardown (m : Manager) (player_id : String) :
    Manager × List Delivery :=
  let m' := disconnect m player_id
  (m', broadcast_player_left m' player_id)

/-- The manager state at process start (`manager = ConnectionManager()`). -/
def initialManager : Manager := { active_connections := [], player_states := [] }

/-- Registry-mutating events the endpoint can drive, for whole-run invariants. -/
inductive Op where
  | join (ws : Conn) (player_id player_name : String)
  | leave (player_id : String)
  | posUpd (player_id : String) (position : Dict Int)
  | rotUpd (player_id : String) (rotation : Dict Int)
deriving Repr

/-- The manager-state effect of one event. -/
def step (m : Manager) : Op → Manager
  | .join ws pid pname => (connect m ws pid pname).1
  | .leave pid => (websocket_teardown m pid).1
  | .posUpd pid pos => (handle_position_update m pid pos).1
  | .rotUpd pid rot => (handle_rotation_update m pid rot).1

/-- Run a sequence of events from the initial manager state. -/
def run (ops : List Op) : Manager := ops.foldl step initialManager

/-- A single-player registry, used in concrete checks. -/
def mgrA : Manager :=
  { active_connections := [("a", true)],
    player_states := [("a", freshState "a" "Alice")] }

/-- A two-player registry with working connections, used in concrete checks. -/
def mgrAB : Manager :=
  { active_connections := [("a", true), ("b", true)],
    player_states := [("a", freshState "a" "Alice"), ("b", freshState "b" "Bob")] }

/-- A full-coordinate position payload. -/
def posXYZ : Dict Int := [("x", 1), ("y", 2), ("z", 3)]

/-- A position payload missing the `z` axis. -/
def posXY : Dict Int := [("x", 1), ("y", 2)]

/-- A block payload whose action is neither `add` nor `remove` and which
carries no block-type identifier. -/
def bdFly : Dict SVal :=
  [("action", .str "fly"), ("x", .num 1), ("y", .num 2), ("z", .num 3)]

/-- A short reachable event history: two joins, then `b` leaves. -/
def ops0 : List Op :=
  [.join true "a" "Alice", .join true "b" "Bob", .leave "b"]

/-- Registry well-formedness: live-connection keys are distinct (a Python
dict property) and every live connection's player has a stored state record
with connected=true. -/
def InvAux (m : Manager) : Prop :=
  keysNodup m.active_connections ∧
  ∀ cid, dmem m.active_connections cid = true →
    ∃ s, dget m.player_states cid = some s ∧ connectedFlag s = true

/-! ### Dictionary lemmas -/

theorem dget_dset_self {α : Type} (d : Dict α) (k : String) (v : α) :
    dget (dset d k v) k = some v := by
  induction d with
  | nil => simp [dset, dget]
  | cons p rest ih =>
    by_cases h : p.1 = k
    · simp [dset, h, dget]
    · simp [dset, h, dget, ih]

theorem dget_dset_ne {α : Type} (d : Dict α) (k k' : String) (v : α)
    (h : k' ≠ k) : dget (dset d k v) k' = dget d k' := by
  induction d with
  | nil => simp [dset, dget, Ne.symm h]
  | cons p rest ih =>
    by_cases hp : p.1 = k
    · simp [dset, hp, dget, Ne.symm h]
    · simp only [dset, if_neg hp]
      by_cases hp' : p.1 = k'
      · simp [dget, hp']
      · simp [dget, hp', ih]

theorem dget_dmodify_self {α : Type} (d : Dict α) (k : String) (f : α → α) :
    dget (dmodify d k f) k = (dget d k).map f := by
  induction d with
  | nil => simp [dmodify, dget]
  | cons p rest ih =>
    by_cases h : p.1 = k
    · simp [dmodify, h, dget]
    · simp [dmodify, h, dget, ih]

theorem dget_dmodify_ne {α : Type} (d : Dict α) (k k' : String) (f : α → α)
    (h : k' ≠ k) : dget (dmodify d k f) k' = dget d k' := by
  induction d with
  | nil => simp [dmodify, dget]
  | cons p rest ih =>
    by_cases hp : p.1 = k
    · simp [dmodify, hp, dget, Ne.symm h]
    · simp only [dmodify, if_neg hp]
      by_cases hp' : p.1 = k'
      · simp [dget, hp']
      · simp [dget, hp', ih]

theorem mem_of_dget_eq_some {α : Type} (d : Dict α) (k : String) (v : α)
    (h : dget d k = some v) : (k, v) ∈ d := by
  induction d with
  | nil => simp [dget] at h
  | cons p rest ih =>
    obtain ⟨a, b⟩ := p
    by_cases hp : a = k
    · subst hp
      simp [dget] at h
      subst h
      exact List.mem_cons_self _ _
    · simp [dget, hp] at h
      exact List.mem_cons_of_mem _ (ih h)

theorem dmem_of_mem {α : Type} (d : Dict α) (k : String) (v : α)
    (h : (k, v) ∈ d) : dmem d k = true := by
  induction d with
  | nil => simp at h
  | cons p rest ih =>
    rcases List.mem_cons.mp h with h | h
    · simp [dmem, dget, ← h]
    · by_cases hp : p.1 = k
      · simp [dmem, dget, hp]
      · simpa [dmem, dget, hp] using ih h

theorem exists_mem_of_dmem {α : Type} (d : Dict α) (k : String)
    (h : dmem d k = true) : ∃ v, (k, v) ∈ d := by
  unfold dmem at h
  cases hv : dget d k with
  | none => simp [hv] at h
  | some v => exact ⟨v, mem_of_dget_eq_some d k v hv⟩

theorem derase_sublist {α : Type} (d : Dict α) (k : String) :
    (derase d k).Sublist d := by
  induction d with
  | nil => simp [derase]
  | cons p rest ih =>
    by_cases hp : p.1 = k
    · rw [derase, if_pos hp]
      exact List.sublist_cons_self p rest
    · rw [derase, if_neg hp]
      exact List.Sublist.cons₂ p ih

theorem mem_of_mem_derase {α : Type} {d : Dict α} {k : String}
    {q : String × α} (h : q ∈ derase d k) : q ∈ d :=
  (derase_sublist d k).mem h

theorem mem_derase_of_ne {α : Type} {d : Dict α} {k : String}
    {q : String × α} (hm : q ∈ d) (hne : q.1 ≠ k) : q ∈ derase d k := by
  induction d with
  | nil => simp at hm
  | cons p rest ih =>
    rcases List.mem_cons.mp hm with h | h
    · subst h
      simp [derase, hne]
    · by_cases hp : p.1 = k
      · simpa [derase, hp] using h
      · simp only [derase, if_neg hp, List.mem_cons]
        exact Or.inr (ih h)

theorem keysNodup_derase {α : Type} {d : Dict α} (k : String)
    (h : keysNodup d) : keysNodup (derase d k) :=
  ((derase_sublist d k).map Prod.fst).nodup h

theorem mem_keys_dset {α : Type} {d : Dict α} {k k' : String} {v : α}
    (h : k' ∈ (dset d k v).map Prod.fst) :
    k' = k ∨ k' ∈ d.map Prod.fst := by
  induction d with
  | nil => simp [dset] at h; exact Or.inl h
  | cons p rest ih =>
    by_cases hp : p.1 = k
    · simp only [dset, if_pos hp, List.map_cons, List.mem_cons] at h
      rcases h with h | h
      · exact Or.inl h
      · exact Or.inr (by simp [h])
    · simp only [dset, if_neg hp, List.map_cons, List.mem_cons] at h
      rcases h with h | h
      · exact Or.inr (by simp [h])
      · rcases ih h with h | h
        · exact Or.inl h
        · exact Or.inr (by simp [h])

theorem keysNodup_dset {α : Type} {d : Dict α} (k : String) (v : α)
    (h : keysNodup d) : keysNodup (dset d k v) := by
  induction d with
  | nil => simp [dset, keysNodup]
  | cons p rest ih =>
    unfold keysNodup at h
    simp only [List.map_cons, List.nodup_cons] at h
    by_cases hp : p.1 = k
    · unfold keysNodup
      simp only [dset, if_pos hp, List.map_cons, List.nodup_cons]
      exact ⟨by rw [← hp]; exact h.1, h.2⟩
    · unfold keysNodup
      simp only [dset, if_neg hp, List.map_cons, List.nodup_cons]
      constructor
      · intro hmem
        rcases List.mem_map.mp hmem with ⟨q, hq, hqk⟩
        rcases mem_keys_dset (List.mem_map.mpr ⟨q, hq, hqk⟩) with hc | hc
        · exact hp hc
        · exact h.1 hc
      · exact ih h.2

theorem not_mem_derase_self {α : Type} {d : Dict α} {k : String} {v : α}
    (hnd : keysNodup d) (h : (k, v) ∈ derase d k) : False := by
  induction d with
  | nil => simp [derase] at h
  | cons p rest ih =>
    unfold keysNodup at hnd
    simp only [List.map_cons, List.nodup_cons] at hnd
    by_cases hp : p.1 = k
    · rw [derase] at h
      rw [if_pos hp] at h
      exact hnd.1 (by rw [hp]; exact List.mem_map.mpr ⟨(k, v), h, rfl⟩)
    · rw [derase] at h
      rw [if_neg hp] at h
      rcases List.mem_cons.mp h with h | h
      · exact hp (congrArg Prod.fst h).symm
      · exact ih hnd.2 h

theorem dget_derase_self {α : Type} {d : Dict α} (k : String)
    (hnd : keysNodup d) : dget (derase d k) k = none := by
  cases hv : dget (derase d k) k with
  | none => rfl
  | some v =>
    exact absurd hv (fun hv =>
      not_mem_derase_self hnd (mem_of_dget_eq_some _ _ _ hv))

/-! ### Broadcast lemmas -/

theorem mem_broadcastAll_iff (conns : Dict Conn) (e e' : Envelope)
    (c : String) :
    (c, e') ∈ broadcastAll conns e ↔ e' = e ∧ (c, true) ∈ conns := by
  induction conns with
  | nil => simp [broadcastAll]
  | cons p rest ih =>
    obtain ⟨a, b⟩ := p
    cases b
    · simp only [broadcastAll, Bool.false_eq_true, if_false, List.mem_cons,
        Prod.mk.injEq]
      rw [ih]
      constructor
      · rintro ⟨he, hm⟩
        exact ⟨he, Or.inr hm⟩
      · rintro ⟨he, ⟨_, hb⟩ | hm⟩
        · exact absurd hb (by simp)
        · exact ⟨he, hm⟩
    · simp only [broadcastAll, if_true, List.mem_cons, Prod.mk.injEq]
      rw [ih]
      constructor
      · rintro (⟨h1, h2⟩ | ⟨he, hm⟩)
        · exact ⟨h2, Or.inl ⟨h1, trivial⟩⟩
        · exact ⟨he, Or.inr hm⟩
      · rintro ⟨he, ⟨h1, _⟩ | hm⟩
        · exact Or.inl ⟨h1, he⟩
        · exact Or.inr ⟨he, hm⟩

theorem count_broadcastAll_eq_one (conns : Dict Conn) (e : Envelope)
    (c : String) (hnd : keysNodup conns) (hm : (c, true) ∈ conns) :
    (broadcastAll conns e).count (c, e) = 1 := by
  induction conns with
  | nil => simp at hm
  | cons p rest ih =>
    obtain ⟨a, b⟩ := p
    unfold keysNodup at hnd
    simp only [List.map_cons, List.nodup_cons] at hnd
    rcases List.mem_cons.mp hm with h | h
    · have ha : c = a := congrArg Prod.fst h
      have hb : b = true := (congrArg Prod.snd h).symm
      subst ha
      subst hb
      have hzero : (broadcastAll rest e).count (c, e) = 0 := by
        rw [List.count_eq_zero]
        intro hmem
        rcases (mem_broadcastAll_iff rest e e c).mp hmem with ⟨_, hct⟩
        exact hnd.1 (List.mem_map.mpr ⟨(c, true), hct, rfl⟩)
      simp [broadcastAll, hzero]
    · have hac : a ≠ c := by
        intro hh
        exact hnd.1 (List.mem_map.mpr ⟨(c, true), h, hh.symm⟩)
      cases b
      · simp only [broadcastAll, Bool.false_eq_true, if_false]
        exact ih hnd.2 h
      · simp only [broadcastAll, if_true]
        rw [List.count_cons_of_ne (by
          simp only [ne_eq, Prod.mk.injEq, not_and]
          exact fun hh => absurd hh.symm hac)]
        exact ih hnd.2 h

/-! ### Frame lemmas for the state-merge loop -/

theorem dget_foldl_setCoord (key : String) (cvs : List (String × Int))
    (st : StateDict) (k : String) (hk : k ≠ key) :
    dget (cvs.foldl (setCoord key) st) k = dget st k := by
  induction cvs generalizing st with
  | nil => rfl
  | cons cv rest ih =>
    rw [List.foldl_cons, ih]
    unfold setCoord
    exact dget_dmodify_ne _ _ _ _ hk

theorem dget_mergeField_ne (st : StateDict) (kv : String × Dict Int)
    (k : String) (hk : k ≠ kv.1) : dget (mergeField st kv) k = dget st k := by
  unfold mergeField
  by_cases h : (kv.1 == "position" || kv.1 == "rotation") = true
  · rw [if_pos h]
    exact dget_foldl_setCoord kv.1 kv.2 st k hk
  · rw [if_neg h]

theorem dget_applyUpdateData_notMem (s : StateDict) (u : Dict (Dict Int))
    (k : String) (hk : k ∉ u.map Prod.fst) :
    dget (applyUpdateData s u) k = dget s k := by
  induction u generalizing s with
  | nil => rfl
  | cons kv rest ih =>
    simp only [List.map_cons, List.mem_cons] at hk
    push_neg at hk
    unfold applyUpdateData at ih ⊢
    rw [List.foldl_cons, ih _ hk.2, dget_mergeField_ne _ _ _ hk.1]

theorem broadcastAll_append (l1 l2 : Dict Conn) (e : Envelope) :
    broadcastAll (l1 ++ l2) e = broadcastAll l1 e ++ broadcastAll l2 e := by
  induction l1 with
  | nil => rfl
  | cons p rest ih =>
    obtain ⟨a, b⟩ := p
    cases b
    · simpa [broadcastAll] using ih
    · simpa [broadcastAll] using ih

/-! ### Claim theorems -/

/-- C7: a recipient whose connection is already broken is skipped (its
`send_text` raises, the exception is caught) and contributes nothing, while
delivery is still attempted to — and succeeds for — every recipient with a
working connection; the overall broadcast is a total function that never
fails. -/
theorem broadcast_dead_peer_isolation (l1 l2 : Dict Conn) (c : String)
    (e : Envelope) :
    broadcastAll (l1 ++ (c, false) :: l2) e
      = broadcastAll l1 e ++ broadcastAll l2 e
    ∧ ∀ d, (d, true) ∈ l1 ++ (c, false) :: l2 →
        (d, e) ∈ broadcastAll (l1 ++ (c, false) :: l2) e := by
  constructor
  · rw [broadcastAll_append]
    simp [broadcastAll]
  · intro d hd
    exact (mem_broadcastAll_iff _ _ _ _).mpr ⟨rfl, hd⟩

/-- Witness for C7: broadcasting to broken `c` followed by live `d`
still delivers to `d`. -/
theorem broadcast_dead_peer_isolation_witness :
    ("d", Envelope.player_left "b")
      ∈ broadcastAll ([] ++ ("c", false) :: [("d", true)])
        (Envelope.player_left "b") :=
  (broadcast_dead_peer_isolation [] [("d", true)] "c"
    (Envelope.player_left "b")).2 "d" (by decide)

/-- C4: a `position_update` whose payload is missing any of the keys x, y, z
is rejected: the manager (hence the sender's stored position) is unchanged
and no broadcast is produced; the same strict validation applies to
`rotation_update`. -/
theorem partial_update_rejected (m : Manager) (pid : String)
    (pos rot : Dict Int) :
    ((dmem pos "x" = false ∨ dmem pos "y" = false ∨ dmem pos "z" = false) →
      handle_position_update m pid pos = (m, []))
    ∧ ((dmem rot "x" = false ∨ dmem rot "y" = false ∨ dmem rot "z" = false) →
      handle_rotation_update m pid rot = (m, [])) := by
  constructor
  · intro h
    have hk : hasKeys pos ["x", "y", "z"] = false := by
      simp only [hasKeys, List.all_cons, List.all_nil, Bool.and_true]
      rcases h with h | h | h <;> simp [h]
    simp [handle_position_update, hk]
  · intro h
    have hk : hasKeys rot ["x", "y", "z"] = false := by
      simp only [hasKeys, List.all_cons, List.all_nil, Bool.and_true]
      rcases h with h | h | h <;> simp [h]
    simp [handle_rotation_update, hk]

/-- Witness for C4: a payload with only x and y is rejected without any
state change or broadcast. -/
theorem partial_update_rejected_witness :
    handle_position_update mgrAB "a" posXY = (mgrAB, []) :=
  (partial_update_rejected mgrAB "a" posXY posXY).1 (by decide)

/-- C1 counterexample: with players a and b both live, a's accepted
`position_update` is delivered to a itself, so the recipient set is not
"every live session except the sender". -/
theorem state_update_sender_receives_cex :
    ("a", Envelope.player_state_update "a" [("position", posXYZ)])
      ∈ (handle_position_update mgrAB "a" posXYZ).2 := by decide

/-- C1 (amended): an accepted position/rotation update from a registered
sender is broadcast to every session with a live working connection,
INCLUDING the sender itself (the frontend is expected to filter its own
updates). -/
theorem state_update_broadcast_recipients (m : Manager) (pid cid : String)
    (pos rot : Dict Int) (hreg : dmem m.player_states pid = true) :
    (hasKeys pos ["x", "y", "z"] = true →
      ((cid, Envelope.player_state_update pid [("position", pos)])
          ∈ (handle_position_update m pid pos).2
        ↔ (cid, true) ∈ m.active_connections))
    ∧ (hasKeys rot ["x", "y", "z"] = true →
      ((cid, Envelope.player_state_update pid [("rotation", rot)])
          ∈ (handle_rotation_update m pid rot).2
        ↔ (cid, true) ∈ m.active_connections)) := by
  constructor
  · intro hk
    unfold handle_position_update update_player_state
    rw [if_pos hk, if_pos hreg]
    constructor
    · intro hmem
      exact ((mem_broadcastAll_iff _ _ _ _).mp hmem).2
    · intro hmem
      exact (mem_broadcastAll_iff _ _ _ _).mpr ⟨rfl, hmem⟩
  · intro hk
    unfold handle_rotation_update update_player_state
    rw [if_pos hk, if_pos hreg]
    constructor
    · intro hmem
      exact ((mem_broadcastAll_iff _ _ _ _).mp hmem).2
    · intro hmem
      exact (mem_broadcastAll_iff _ _ _ _).mpr ⟨rfl, hmem⟩

/-- Witness for C1 (amended): the sender a and the peer b both receive a's
position update. -/
theorem state_update_broadcast_recipients_witness :
    ("b", Envelope.player_state_update "a" [("position", posXYZ)])
      ∈ (handle_position_update mgrAB "a" posXYZ).2 :=
  ((state_update_broadcast_recipients mgrAB "a" "b" posXYZ posXYZ
    (by decide)).1 (by decide)).mpr (by decide)

/-- C5 counterexample: a block payload with action "fly" (not add/remove)
and no block-type identifier is accepted and re-broadcast. -/
theorem block_update_bad_action_cex :
    ("b", Envelope.block_update bdFly)
      ∈ (handle_block_update mgrAB "a" bdFly).2 := by decide

/-- C5 (amended): a `block_update` payload is accepted and re-broadcast
exactly when it contains the keys action, x, y, z — the value of `action`
is never inspected and no block-type identifier is required; a payload
missing any of those keys produces no broadcast and no state change, and
acceptance never changes manager state either. -/
theorem block_update_key_presence_only (m : Manager) (pid cid : String)
    (bd : Dict SVal) :
    ((dmem bd "action" = false ∨ dmem bd "x" = false ∨ dmem bd "y" = false
        ∨ dmem bd "z" = false) →
      handle_block_update m pid bd = (m, []))
    ∧ (hasKeys bd ["action", "x", "y", "z"] = true →
      (handle_block_update m pid bd).1 = m
      ∧ ((cid, Envelope.block_update bd) ∈ (handle_block_update m pid bd).2
          ↔ (cid, true) ∈ m.active_connections)) := by
  constructor
  · intro h
    have hk : hasKeys bd ["action", "x", "y", "z"] = false := by
      simp only [hasKeys, List.all_cons, List.all_nil, Bool.and_true]
      rcases h with h | h | h | h <;> simp [h]
    simp [handle_block_update, hk]
  · intro hk
    unfold handle_block_update
    rw [if_pos hk]
    refine ⟨rfl, ?_⟩
    unfold broadcast_block_update
    constructor
    · intro hmem
      exact ((mem_broadcastAll_iff _ _ _ _).mp hmem).2
    · intro hmem
      exact (mem_broadcastAll_iff _ _ _ _).mpr ⟨rfl, hmem⟩

/-- Witness for C5 (amended): a key-complete remove payload reaches the
peer b. -/
theorem block_update_key_presence_only_witness :
    ("b", Envelope.block_update
        [("action", SVal.str "remove"), ("x", SVal.num 1), ("y", SVal.num 2),
         ("z", SVal.num 3)])
      ∈ (handle_block_update mgrAB "a"
        [("action", SVal.str "remove"), ("x", SVal.num 1), ("y", SVal.num 2),
         ("z", SVal.num 3)]).2 :=
  ((block_update_key_presence_only mgrAB "a" "b"
    [("action", SVal.str "remove"), ("x", SVal.num 1), ("y", SVal.num 2),
     ("z", SVal.num 3)]).2 (by decide)).2.mpr (by decide)

/-- C6: a chat message whose text strips to empty produces no broadcast at
all (and the handler surfaces no error, returning normally); otherwise the
trimmed text is delivered, tagged with the sender's id, to every session
with a live working connection including the sender. -/
theorem chat_message_spec (m : Manager) (pid text cid : String) :
    (pyStrip text = "" → handle_chat_message m pid text = [])
    ∧ (pyStrip text ≠ "" →
      ((cid, Envelope.chat_message pid (pyStrip text))
          ∈ handle_chat_message m pid text
        ↔ (cid, true) ∈ m.active_connections)) := by
  constructor
  · intro h
    simp [handle_chat_message, h]
  · intro h
    simp only [handle_chat_message]
    rw [if_pos h]
    constructor
    · intro hmem
      exact ((mem_broadcastAll_iff _ _ _ _).mp hmem).2
    · intro hmem
      exact (mem_broadcastAll_iff _ _ _ _).mpr ⟨rfl, hmem⟩

/-- Witness for C6: a padded non-empty chat line reaches the sender a
itself, carrying the trimmed text. -/
theorem chat_message_spec_witness :
    (pyStrip " hi " ≠ "")
    ∧ ("a", Envelope.chat_message "a" (pyStrip " hi "))
        ∈ handle_chat_message mgrAB "a" " hi " :=
  ⟨by decide,
    ((chat_message_spec mgrAB "a" " hi " "a").2 (by decide)).mpr (by decide)⟩

/-- C8 counterexample: the state stored for a newly registered player has
no transformState key at all (the claim says it defaults to false). -/
theorem connect_no_transformState_cex :
    (dget ((connect initialManager true "p1" "Alice").1).player_states
        "p1").map (fun s => dget s "transformState")
      = some none := by decide

/-- C8 (amended): a newly registered session's stored state has position
{x:32, y:32, z:32}, rotation {x:0, y:0, z:0} and connected=true, and
contains no transformState field (the record holds exactly id, name,
position, rotation, connected). -/
theorem connect_initial_state (m : Manager) (ws : Conn)
    (pid pname : String) :
    dget ((connect m ws pid pname).1).player_states pid
      = some (freshState pid pname)
    ∧ dget (freshState pid pname) "position"
      = some (.dict [("x", 32), ("y", 32), ("z", 32)])
    ∧ dget (freshState pid pname) "rotation"
      = some (.dict [("x", 0), ("y", 0), ("z", 0)])
    ∧ dget (freshState pid pname) "connected" = some (.boolean true)
    ∧ dget (freshState pid pname) "transformState" = none
    ∧ (freshState pid pname).map Prod.fst
      = ["id", "name", "position", "rotation", "connected"] :=
  ⟨dget_dset_self m.player_states pid (freshState pid pname),
    rfl, rfl, rfl, rfl, rfl⟩

theorem disconnect_not_active (m : Manager) (pid : String)
    (h : dmem m.active_connections pid = false) : disconnect m pid = m := by
  unfold disconnect
  rw [if_neg (by simp [h])]

/-- C2 counterexample: when a player joins an empty registry the filtered
snapshot set is empty, and the code then delivers NO existing_players
envelope at all (the claim requires a snapshot delivery containing exactly
the empty set). -/
theorem send_existing_players_empty_cex :
    send_existing_players mgrA "a" = [] := by decide

/-- C2 (amended): for a joiner with a live working connection, the snapshot
step sends exactly one existing_players envelope — to the joiner and to the
joiner only — whose player list is exactly the states of the
connected=true sessions other than the joiner, but only when that set is
non-empty; when the set is empty no envelope is sent at all. -/
theorem send_existing_players_spec (m : Manager) (pid : String)
    (hlive : dget m.active_connections pid = some true) :
    (m.player_states.filter (fun p => (p.1 != pid) && connectedFlag p.2) = [] →
      send_existing_players m pid = [])
    ∧ (m.player_states.filter (fun p => (p.1 != pid) && connectedFlag p.2) ≠ [] →
      send_existing_players m pid
        = [(pid, .existing_players
            ((m.player_states.filter
              (fun p => (p.1 != pid) && connectedFlag p.2)).map Prod.snd))])
    ∧ (∀ s, s ∈ (m.player_states.filter
          (fun p => (p.1 != pid) && connectedFlag p.2)).map Prod.snd
        ↔ ∃ q, (q, s) ∈ m.player_states ∧ q ≠ pid ∧ connectedFlag s = true) := by
  refine ⟨?_, ?_, ?_⟩
  · intro h
    simp [send_existing_players, hlive, h]
  · intro h
    simp only [send_existing_players, hlive]
    rw [if_neg (by simpa [List.isEmpty_iff] using h)]
    rw [if_pos trivial]
  · intro s
    constructor
    · intro hs
      rcases List.mem_map.mp hs with ⟨q, hq, hqs⟩
      obtain ⟨qk, qv⟩ := q
      rcases List.mem_filter.mp hq with ⟨hql, hqf⟩
      rw [Bool.and_eq_true, bne_iff_ne] at hqf
      subst hqs
      exact ⟨qk, hql, hqf.1, hqf.2⟩
    · rintro ⟨qk, hql, hne, hcf⟩
      exact List.mem_map.mpr ⟨(qk, s), List.mem_filter.mpr ⟨hql, by
        rw [Bool.and_eq_true, bne_iff_ne]
        exact ⟨hne, hcf⟩⟩, rfl⟩

/-- Witness for C2 (amended): with a live and b joining, b's snapshot is a
single envelope to b holding exactly a's state. -/
theorem send_existing_players_spec_witness :
    send_existing_players mgrAB "b"
      = [("b", .existing_players
          ((mgrAB.player_states.filter
            (fun p => (p.1 != "b") && connectedFlag p.2)).map Prod.snd))] :=
  ((send_existing_players_spec mgrAB "b" (by decide)).2.1 (by decide))

/-- C3: tearing down a session delivers exactly one player_left envelope,
tagged with the departing id, to each remaining session with a live working
connection; the departed session itself receives none; and running the
deregistration step (`disconnect`) a second time for the same id leaves the
registry unchanged — and `disconnect` by itself never emits any broadcast,
so no duplicate player_left can arise from it. -/
theorem teardown_exactly_one_player_left (m : Manager) (pid : String)
    (hnd : keysNodup m.active_connections) :
    (∀ cid, cid ≠ pid → (cid, true) ∈ m.active_connections →
      ((websocket_teardown m pid).2).count (cid, Envelope.player_left pid) = 1)
    ∧ (∀ e, (pid, e) ∉ (websocket_teardown m pid).2)
    ∧ disconnect (disconnect m pid) pid = disconnect m pid := by
  by_cases hmem : dmem m.active_connections pid = true
  · have hd : (disconnect m pid).active_connections
        = derase m.active_connections pid := by
      unfold disconnect
      rw [if_pos hmem]
    refine ⟨?_, ?_, ?_⟩
    · intro cid hne hcid
      show (broadcastAll (disconnect m pid).active_connections
        (.player_left pid)).count _ = 1
      rw [hd]
      exact count_broadcastAll_eq_one _ _ _ (keysNodup_derase _ hnd)
        (mem_derase_of_ne hcid hne)
    · intro e hmem2
      have hmem3 : (pid, e)
          ∈ broadcastAll (derase m.active_connections pid) (.player_left pid) := by
        rw [← hd]
        exact hmem2
      rcases (mem_broadcastAll_iff _ _ _ _).mp hmem3 with ⟨_, hmem4⟩
      exact not_mem_derase_self hnd hmem4
    · refine disconnect_not_active _ _ ?_
      rw [hd]
      unfold dmem
      rw [dget_derase_self pid hnd]
      rfl
  · rw [Bool.not_eq_true] at hmem
    have hd0 : disconnect m pid = m := disconnect_not_active _ _ hmem
    refine ⟨?_, ?_, ?_⟩
    · intro cid hne hcid
      show (broadcastAll (disconnect m pid).active_connections
        (.player_left pid)).count _ = 1
      rw [hd0]
      exact count_broadcastAll_eq_one _ _ _ hnd hcid
    · intro e hmem2
      have hmem3 : (pid, e)
          ∈ broadcastAll m.active_connections (.player_left pid) := by
        rw [← hd0]
        exact hmem2
      rcases (mem_broadcastAll_iff _ _ _ _).mp hmem3 with ⟨_, hmem4⟩
      rw [dmem_of_mem _ _ _ hmem4] at hmem
      exact Bool.noConfusion hmem
    · rw [hd0, hd0]

/-- Witness for C3: after b's teardown in the two-player registry, a gets
exactly one player_left for b. -/
theorem teardown_exactly_one_player_left_witness :
    ((websocket_teardown mgrAB "b").2).count ("a", Envelope.player_left "b") = 1 :=
  (teardown_exactly_one_player_left mgrAB "b"
      (by unfold keysNodup; decide)).1 "a"
    (by decide) (by decide)

/-! ### Invariant preservation -/

theorem connectedFlag_applyUpdateData (s : StateDict) (u : Dict (Dict Int))
    (hu : "connected" ∉ u.map Prod.fst) :
    connectedFlag (applyUpdateData s u) = connectedFlag s := by
  unfold connectedFlag
  rw [dget_applyUpdateData_notMem s u "connected" hu]

theorem invAux_update (m : Manager) (pid : String) (u : Dict (Dict Int))
    (hu : "connected" ∉ u.map Prod.fst) (h : InvAux m) :
    InvAux ((update_player_state m pid u).1) := by
  unfold update_player_state
  by_cases hreg : dmem m.player_states pid = true
  · rw [if_pos hreg]
    refine ⟨h.1, ?_⟩
    intro cid hcid
    rcases h.2 cid hcid with ⟨s, hs, hcf⟩
    by_cases hc : cid = pid
    · subst hc
      refine ⟨applyUpdateData s u, ?_, ?_⟩
      · show dget (dmodify m.player_states cid
          (fun s => applyUpdateData s u)) cid = _
        rw [dget_dmodify_self, hs, Option.map_some']
      · rw [connectedFlag_applyUpdateData s u hu]
        exact hcf
    · refine ⟨s, ?_, hcf⟩
      show dget (dmodify m.player_states pid
        (fun s => applyUpdateData s u)) cid = _
      rw [dget_dmodify_ne _ _ _ _ hc]
      exact hs
  · rw [if_neg hreg]
    exact h

theorem invAux_step (m : Manager) (op : Op) (h : InvAux m) :
    InvAux (step m op) := by
  cases op with
  | join ws pid pname =>
    show InvAux (connectRegister m ws pid pname)
    refine ⟨keysNodup_dset pid ws h.1, ?_⟩
    intro cid hcid
    by_cases hc : cid = pid
    · subst hc
      refine ⟨freshState cid pname, ?_, rfl⟩
      exact dget_dset_self ..
    · simp only [connectRegister, dmem] at hcid
      rw [dget_dset_ne _ _ _ _ hc] at hcid
      rcases h.2 cid hcid with ⟨s, hs, hcf⟩
      refine ⟨s, ?_, hcf⟩
      show dget (dset m.player_states pid (freshState pid pname)) cid = _
      rw [dget_dset_ne _ _ _ _ hc]
      exact hs
  | leave pid =>
    show InvAux (disconnect m pid)
    by_cases hmem : dmem m.active_connections pid = true
    · unfold disconnect
      rw [if_pos hmem]
      refine ⟨keysNodup_derase pid h.1, ?_⟩
      intro cid hcid
      rcases exists_mem_of_dmem _ _ hcid with ⟨v, hv⟩
      by_cases hc : cid = pid
      · subst hc
        exact absurd hv (fun hv => not_mem_derase_self h.1 hv)
      · have hcid' : dmem m.active_connections cid = true :=
          dmem_of_mem _ _ _ (mem_of_mem_derase hv)
        rcases h.2 cid hcid' with ⟨s, hs, hcf⟩
        refine ⟨s, ?_, hcf⟩
        by_cases hreg : dmem m.player_states pid = true
        · rw [if_pos hreg]
          rw [dget_dmodify_ne _ _ _ _ hc]
          exact hs
        · rw [if_neg hreg]
          exact hs
    · rw [Bool.not_eq_true] at hmem
      rw [disconnect_not_active m pid hmem]
      exact h
  | posUpd pid pos =>
    show InvAux (handle_position_update m pid pos).1
    unfold handle_position_update
    by_cases hk : hasKeys pos ["x", "y", "z"] = true
    · rw [if_pos hk]
      exact invAux_update m pid [("position", pos)] (by simp) h
    · rw [if_neg hk]
      exact h
  | rotUpd pid rot =>
    show InvAux (handle_rotation_update m pid rot).1
    unfold handle_rotation_update
    by_cases hk : hasKeys rot ["x", "y", "z"] = true
    · rw [if_pos hk]
      exact invAux_update m pid [("rotation", rot)] (by simp) h
    · rw [if_neg hk]
      exact h

theorem invAux_run (ops : List Op) : InvAux (run ops) := by
  have hinit : InvAux initialManager := by
    refine ⟨by simp [keysNodup, initialManager], ?_⟩
    intro cid hcid
    simp [initialManager, dmem, dget] at hcid
  suffices hgen : ∀ (l : List Op) (b : Manager),
      InvAux b → InvAux (l.foldl step b) from hgen ops initialManager hinit
  intro l
  induction l with
  | nil =>
    intro b hb
    exact hb
  | cons o rest ih =>
    intro b hb
    exact ih _ (invAux_step b o hb)

/-- C9: after any sequence of joins, disconnect teardowns and state
updates, every id in the live-connection map has a stored state with
connected=true; hence a record with connected=false is never among the
broadcast recipients and never appears in the peer-facing snapshot list. -/
theorem live_connection_invariant (ops : List Op) (cid : String) :
    (dmem (run ops).active_connections cid = true →
      ∃ s, dget (run ops).player_states cid = some s ∧ connectedFlag s = true)
    ∧ (∀ s e, dget (run ops).player_states cid = some s →
        connectedFlag s = false →
        (cid, e) ∉ broadcastAll (run ops).active_connections e)
    ∧ (∀ pid0 s, connectedFlag s = false →
        s ∉ ((run ops).player_states.filter
          (fun p => (p.1 != pid0) && connectedFlag p.2)).map Prod.snd) := by
  refine ⟨fun h => (invAux_run ops).2 cid h, ?_, ?_⟩
  · intro s e hs hcf hmem
    rcases (mem_broadcastAll_iff _ _ _ _).mp hmem with ⟨_, hct⟩
    rcases (invAux_run ops).2 cid (dmem_of_mem _ _ _ hct) with ⟨s', hs', hcf'⟩
    rw [hs] at hs'
    rw [← Option.some.inj hs'] at hcf'
    rw [hcf] at hcf'
    exact Bool.noConfusion hcf'
  · intro pid0 s hcf hmem
    rcases List.mem_map.mp hmem with ⟨q, hq, hqs⟩
    rcases List.mem_filter.mp hq with ⟨_, hqf⟩
    rw [Bool.and_eq_true] at hqf
    rw [hqs, hcf] at hqf
    exact Bool.noConfusion hqf.2

/-- Witness for C9: after a joins, b joins and b leaves, a is live and its
stored state is connected. -/
theorem live_connection_invariant_witness :
    ∃ s, dget (run ops0).player_states "a" = some s
      ∧ connectedFlag s = true :=
  (live_connection_invariant ops0 "a").1 (by decide)

/-- C10: an accepted position (resp. rotation) update from a registered
sender leaves the live-connection map untouched, leaves every other
session's stored state untouched, and changes at most the "position"
(resp. "rotation") entry of the sender's own record — id, name, connected
and the other transform entry are all unchanged. -/
theorem update_frame_condition (m : Manager) (pid cid : String)
    (pos rot : Dict Int) (hreg : dmem m.player_states pid = true) :
    (hasKeys pos ["x", "y", "z"] = true →
      (handle_position_update m pid pos).1.active_connections
          = m.active_connections
      ∧ (cid ≠ pid →
          dget (handle_position_update m pid pos).1.player_states cid
            = dget m.player_states cid)
      ∧ (∀ s s', dget m.player_states pid = some s →
          dget (handle_position_update m pid pos).1.player_states pid
            = some s' →
          ∀ k, k ≠ "position" → dget s' k = dget s k))
    ∧ (hasKeys rot ["x", "y", "z"] = true →
      (handle_rotation_update m pid rot).1.active_connections
          = m.active_connections
      ∧ (cid ≠ pid →
          dget (handle_rotation_update m pid rot).1.player_states cid
            = dget m.player_states cid)
      ∧ (∀ s s', dget m.player_states pid = some s →
          dget (handle_rotation_update m pid rot).1.player_states pid
            = some s' →
          ∀ k, k ≠ "rotation" → dget s' k = dget s k)) := by
  constructor
  · intro hk
    unfold handle_position_update update_player_state
    rw [if_pos hk, if_pos hreg]
    refine ⟨rfl, ?_, ?_⟩
    · intro hne
      exact dget_dmodify_ne _ _ _ _ hne
    · intro s s' hs hs' k hkk
      have hs2 : dget (dmodify m.player_states pid
          (fun s => applyUpdateData s [("position", pos)])) pid = some s' := hs'
      rw [dget_dmodify_self, hs, Option.map_some'] at hs2
      rw [← Option.some.inj hs2]
      exact dget_applyUpdateData_notMem s [("position", pos)] k (by simp [hkk])
  · intro hk
    unfold handle_rotation_update update_player_state
    rw [if_pos hk, if_pos hreg]
    refine ⟨rfl, ?_, ?_⟩
    · intro hne
      exact dget_dmodify_ne _ _ _ _ hne
    · intro s s' hs hs' k hkk
      have hs2 : dget (dmodify m.player_states pid
          (fun s => applyUpdateData s [("rotation", rot)])) pid = some s' := hs'
      rw [dget_dmodify_self, hs, Option.map_some'] at hs2
      rw [← Option.some.inj hs2]
      exact dget_applyUpdateData_notMem s [("rotation", rot)] k (by simp [hkk])

/-- Witness for C10: a's accepted position update leaves b's stored state
untouched. -/
theorem update_frame_condition_witness :
    dget (handle_position_update mgrAB "a" posXYZ).1.player_states "b"
      = dget mgrAB.player_states "b" :=
  ((update_frame_condition mgrAB "a" "b" posXYZ posXYZ (by decide)).1
    (by decide)).2.1 (by decide)

end Backend
